import Mathlib

/-!
# Verification of the digit-drawing preprocessing and TTA inference pipeline

Shallow embedding of `src/script.js` (and the duplicate pipeline copy in
`src/unnamed/part_000`): bounding-box extraction, intensity-weighted center
of mass, canonical 28×28 frame extraction, the test-time-augmentation
prediction driver, and the contender ranking.

A raster is modelled as its RGBA byte buffer: a function `Nat → Nat` giving
the byte at each buffer index, together with a width `w` and height `h`.
The sample at column `x`, row `y` has its first (red) channel at buffer
index `(y*w + x)*4`, exactly as the source indexes `data[(y*w + x)*4]`.
JavaScript numbers on the integer quantities involved are exact, so they
are modelled as `Nat`; fractional quantities (scale factors, placement
offsets, normalized pixel values, probabilities) are modelled as `ℚ`.
-/

namespace Script

/-- The raster scan positions `(y, x)` in the order the source's nested
loops (`for y … for x …`) visit them. -/
def gridPositions (w h : Nat) : List (Nat × Nat) :=
  (List.range h).flatMap (fun y => (List.range w).map (fun x => (y, x)))

/-- The ink test of the source: a sample is ink when its first channel
value exceeds 50 (`data[(y*w + x)*4] > 50`). `p` is a `(y, x)` position. -/
def inkAt (data : Nat → Nat) (w : Nat) (p : Nat × Nat) : Bool :=
  decide (50 < data ((p.1 * w + p.2) * 4))

/-- Loop state of `getBoundingBox`: running min/max and the `found` flag. -/
structure BBoxState where
  minX : Nat
  minY : Nat
  maxX : Nat
  maxY : Nat
  found : Bool
deriving Repr, DecidableEq

/-- One iteration of the `getBoundingBox` scan body. -/
def bboxStep (data : Nat → Nat) (w : Nat) (st : BBoxState) (p : Nat × Nat) : BBoxState :=
  if inkAt data w p then
    { minX := if p.2 < st.minX then p.2 else st.minX
      minY := if p.1 < st.minY then p.1 else st.minY
      maxX := if st.maxX < p.2 then p.2 else st.maxX
      maxY := if st.maxY < p.1 then p.1 else st.maxY
      found := true }
  else st

/-- The box returned by `getBoundingBox`:
`{minX, minY, w: maxX-minX+1, h: maxY-minY+1}`. -/
structure BBox where
  minX : Nat
  minY : Nat
  w : Nat
  h : Nat
deriving Repr, DecidableEq

/-- `getBoundingBox(data, w, h)` from `src/script.js`: scan every sample in
row-major order starting from `minX=w, minY=h, maxX=0, maxY=0, found=false`;
return the box when `found`, else `null`. -/
def getBoundingBox (data : Nat → Nat) (w h : Nat) : Option BBox :=
  let st := (gridPositions w h).foldl (bboxStep data w) ⟨w, h, 0, 0, false⟩
  if st.found then some ⟨st.minX, st.minY, st.maxX - st.minX + 1, st.maxY - st.minY + 1⟩
  else none

/-- Loop state of `getCenterOfMass`: the three accumulators. -/
structure ComState where
  sumX : Nat
  sumY : Nat
  mass : Nat
deriving Repr, DecidableEq

/-- One iteration of the `getCenterOfMass` scan body:
`sumX += x*val; sumY += y*val; mass += val` when `val > 50`. -/
def comStep (data : Nat → Nat) (w : Nat) (st : ComState) (p : Nat × Nat) : ComState :=
  let val := data ((p.1 * w + p.2) * 4)
  if inkAt data w p then ⟨st.sumX + p.2 * val, st.sumY + p.1 * val, st.mass + val⟩
  else st

/-- `getCenterOfMass(data, w, h)` from `src/script.js`: accumulate the
weighted sums, return `null` when `mass === 0`, else
`{x: sumX/mass, y: sumY/mass}`. -/
def getCenterOfMass (data : Nat → Nat) (w h : Nat) : Option (ℚ × ℚ) :=
  let st := (gridPositions w h).foldl (comStep data w) ⟨0, 0, 0⟩
  if st.mass = 0 then none
  else some ((st.sumX : ℚ) / (st.mass : ℚ), (st.sumY : ℚ) / (st.mass : ℚ))

end Script

namespace Part000

/-- One iteration of the scan body of `getBoundingBox` in
`src/unnamed/part_000` (textually the same loop body as in `src/script.js`). -/
def bboxStep (data : Nat → Nat) (w : Nat) (st : Script.BBoxState) (p : Nat × Nat) :
    Script.BBoxState :=
  if Script.inkAt data w p then
    { minX := if p.2 < st.minX then p.2 else st.minX
      minY := if p.1 < st.minY then p.1 else st.minY
      maxX := if st.maxX < p.2 then p.2 else st.maxX
      maxY := if st.maxY < p.1 then p.1 else st.maxY
      found := true }
  else st

/-- `getBoundingBox(data, w, h)` from `src/unnamed/part_000`. -/
def getBoundingBox (data : Nat → Nat) (w h : Nat) : Option Script.BBox :=
  let st := (Script.gridPositions w h).foldl (bboxStep data w) ⟨w, h, 0, 0, false⟩
  if st.found then some ⟨st.minX, st.minY, st.maxX - st.minX + 1, st.maxY - st.minY + 1⟩
  else none

/-- One iteration of the scan body of `getCenterOfMass` in
`src/unnamed/part_000`. -/
def comStep (data : Nat → Nat) (w : Nat) (st : Script.ComState) (p : Nat × Nat) :
    Script.ComState :=
  let val := data ((p.1 * w + p.2) * 4)
  if Script.inkAt data w p then ⟨st.sumX + p.2 * val, st.sumY + p.1 * val, st.mass + val⟩
  else st

/-- `getCenterOfMass(data, w, h)` from `src/unnamed/part_000`. -/
def getCenterOfMass (data : Nat → Nat) (w h : Nat) : Option (ℚ × ℚ) :=
  let st := (Script.gridPositions w h).foldl (comStep data w) ⟨0, 0, 0⟩
  if st.mass = 0 then none
  else some ((st.sumX : ℚ) / (st.mass : ℚ), (st.sumY : ℚ) / (st.mass : ℚ))

end Part000

namespace Script

/-- Membership in the scan order: exactly the in-range `(y, x)` positions. -/
theorem mem_gridPositions {w h : Nat} {p : Nat × Nat} :
    p ∈ gridPositions w h ↔ p.1 < h ∧ p.2 < w := by
  cases p with
  | mk y x =>
    simp only [gridPositions, List.mem_flatMap, List.mem_map, List.mem_range, Prod.mk.injEq]
    constructor
    · rintro ⟨y', hy', x', hx', rfl, rfl⟩
      exact ⟨hy', hx'⟩
    · rintro ⟨hy, hx⟩
      exact ⟨y, hy, x, hx, rfl, rfl⟩

end Script

namespace Script

/-- The `getBoundingBox` scan, characterized: the final state holds the
fold of `min`/`max` over the coordinates of the ink samples, and `found`
records whether any ink sample was seen. -/
theorem foldl_bboxStep (data : Nat → Nat) (w : Nat) :
    ∀ (l : List (Nat × Nat)) (st : BBoxState),
      l.foldl (bboxStep data w) st =
        ⟨((l.filter (inkAt data w)).map (·.2)).foldl min st.minX,
         ((l.filter (inkAt data w)).map (·.1)).foldl min st.minY,
         ((l.filter (inkAt data w)).map (·.2)).foldl max st.maxX,
         ((l.filter (inkAt data w)).map (·.1)).foldl max st.maxY,
         st.found || l.any (inkAt data w)⟩ := by
  intro l
  induction l with
  | nil => intro st; simp
  | cons p t ih =>
    intro st
    by_cases hp : inkAt data w p = true
    · have e1 : (if p.2 < st.minX then p.2 else st.minX) = min st.minX p.2 := by
        rw [Nat.min_def]; split_ifs <;> omega
      have e2 : (if p.1 < st.minY then p.1 else st.minY) = min st.minY p.1 := by
        rw [Nat.min_def]; split_ifs <;> omega
      have e3 : (if st.maxX < p.2 then p.2 else st.maxX) = max st.maxX p.2 := by
        rw [Nat.max_def]; split_ifs <;> omega
      have e4 : (if st.maxY < p.1 then p.1 else st.maxY) = max st.maxY p.1 := by
        rw [Nat.max_def]; split_ifs <;> omega
      have hstep : bboxStep data w st p =
          ⟨min st.minX p.2, min st.minY p.1, max st.maxX p.2, max st.maxY p.1, true⟩ := by
        simp only [bboxStep, hp, if_true, e1, e2, e3, e4]
      rw [List.foldl_cons, hstep, ih]
      simp [List.filter_cons, hp, List.any_cons]
    · have hp' : inkAt data w p = false := by
        revert hp; cases inkAt data w p <;> simp
      have hstep : bboxStep data w st p = st := by
        simp [bboxStep, hp']
      rw [List.foldl_cons, hstep, ih]
      simp [List.filter_cons, hp', List.any_cons]

/-- `List.foldl min` is a lower bound for its initial value. -/
theorem foldl_min_le_init : ∀ (l : List Nat) (a : Nat), l.foldl min a ≤ a := by
  intro l
  induction l with
  | nil => intro a; simp
  | cons x t ih =>
    intro a
    calc (x :: t).foldl min a = t.foldl min (min a x) := rfl
    _ ≤ min a x := ih _
    _ ≤ a := Nat.min_le_left _ _

/-- `List.foldl min` is a lower bound for every member. -/
theorem foldl_min_le_mem : ∀ (l : List Nat) (a x : Nat), x ∈ l → l.foldl min a ≤ x := by
  intro l
  induction l with
  | nil => intro a x hx; cases hx
  | cons y t ih =>
    intro a x hx
    rcases List.mem_cons.1 hx with rfl | hx
    · calc (x :: t).foldl min a = t.foldl min (min a x) := rfl
      _ ≤ min a x := foldl_min_le_init _ _
      _ ≤ x := Nat.min_le_right _ _
    · exact ih _ x hx

/-- `List.foldl min` is attained: it is the initial value or a member. -/
theorem foldl_min_mem : ∀ (l : List Nat) (a : Nat), l.foldl min a = a ∨ l.foldl min a ∈ l := by
  intro l
  induction l with
  | nil => intro a; left; rfl
  | cons x t ih =>
    intro a
    have : (x :: t).foldl min a = t.foldl min (min a x) := rfl
    rw [this]
    rcases ih (min a x) with h | h
    · rcases Nat.le_total a x with hax | hxa
      · left; rw [h]; exact Nat.min_eq_left hax
      · right; rw [h, Nat.min_eq_right hxa]; exact List.mem_cons_self _ _
    · right; exact List.mem_cons_of_mem _ h

/-- `List.foldl max` is an upper bound for its initial value. -/
theorem le_foldl_max_init : ∀ (l : List Nat) (a : Nat), a ≤ l.foldl max a := by
  intro l
  induction l with
  | nil => intro a; simp
  | cons x t ih =>
    intro a
    calc a ≤ max a x := Nat.le_max_left _ _
    _ ≤ t.foldl max (max a x) := ih _
    _ = (x :: t).foldl max a := rfl

/-- `List.foldl max` is an upper bound for every member. -/
theorem le_foldl_max_mem : ∀ (l : List Nat) (a x : Nat), x ∈ l → x ≤ l.foldl max a := by
  intro l
  induction l with
  | nil => intro a x hx; cases hx
  | cons y t ih =>
    intro a x hx
    rcases List.mem_cons.1 hx with rfl | hx
    · calc x ≤ max a x := Nat.le_max_right _ _
      _ ≤ t.foldl max (max a x) := le_foldl_max_init _ _
      _ = (x :: t).foldl max a := rfl
    · exact ih _ x hx

/-- `List.foldl max` is attained: it is the initial value or a member. -/
theorem foldl_max_mem : ∀ (l : List Nat) (a : Nat), l.foldl max a = a ∨ l.foldl max a ∈ l := by
  intro l
  induction l with
  | nil => intro a; left; rfl
  | cons x t ih =>
    intro a
    have : (x :: t).foldl max a = t.foldl max (max a x) := rfl
    rw [this]
    rcases ih (max a x) with h | h
    · rcases Nat.le_total a x with hax | hxa
      · right; rw [h, Nat.max_eq_right hax]; exact List.mem_cons_self _ _
      · left; rw [h]; exact Nat.max_eq_left hxa
    · right; exact List.mem_cons_of_mem _ h

end Script

namespace Script

/-- The x-coordinates of the ink samples, in scan order. -/
def inkXs (data : Nat → Nat) (w h : Nat) : List Nat :=
  (((gridPositions w h).filter (inkAt data w)).map (·.2))

/-- The y-coordinates of the ink samples, in scan order. -/
def inkYs (data : Nat → Nat) (w h : Nat) : List Nat :=
  (((gridPositions w h).filter (inkAt data w)).map (·.1))

/-- `getBoundingBox` as a single conditional over the ink scan. -/
theorem getBoundingBox_eq (data : Nat → Nat) (w h : Nat) :
    getBoundingBox data w h =
      if (gridPositions w h).any (inkAt data w) then
        some ⟨(inkXs data w h).foldl min w, (inkYs data w h).foldl min h,
              (inkXs data w h).foldl max 0 - (inkXs data w h).foldl min w + 1,
              (inkYs data w h).foldl max 0 - (inkYs data w h).foldl min h + 1⟩
      else none := by
  have hfold := foldl_bboxStep data w (gridPositions w h) ⟨w, h, 0, 0, false⟩
  simp only [getBoundingBox, hfold, Bool.false_or, inkXs, inkYs]

end Script

namespace Script

/-- Every ink x-coordinate is in range. -/
theorem inkXs_lt (data : Nat → Nat) (w h : Nat) : ∀ x ∈ inkXs data w h, x < w := by
  intro x hx
  rcases List.mem_map.1 hx with ⟨p, hp, rfl⟩
  exact (mem_gridPositions.1 (List.mem_filter.1 hp).1).2

/-- Every ink y-coordinate is in range. -/
theorem inkYs_lt (data : Nat → Nat) (w h : Nat) : ∀ y ∈ inkYs data w h, y < h := by
  intro y hy
  rcases List.mem_map.1 hy with ⟨p, hp, rfl⟩
  exact (mem_gridPositions.1 (List.mem_filter.1 hp).1).1

end Script

namespace Script


/-- **C1.** `getBoundingBox` returns `none` exactly when no sample's first
channel value exceeds 50; otherwise it returns the tight inclusive bounding
box of the ink samples — every ink sample lies inside the box, each of the
four box edges is attained by an ink sample, and width/height are the
inclusive extents `maxX-minX+1` and `maxY-minY+1`; in particular, a raster
whose only ink sample is at `(x, y)` yields the box
`{minX := x, minY := y, w := 1, h := 1}`. -/
theorem getBoundingBox_correct (data : Nat → Nat) (w h : Nat) :
    (getBoundingBox data w h = none ↔
      ∀ y, y < h → ∀ x, x < w → inkAt data w (y, x) = false)
    ∧ (∀ b, getBoundingBox data w h = some b →
        (∀ y x, y < h → x < w → inkAt data w (y, x) = true →
          b.minX ≤ x ∧ x ≤ b.minX + b.w - 1 ∧ b.minY ≤ y ∧ y ≤ b.minY + b.h - 1)
        ∧ (∃ p, p ∈ gridPositions w h ∧ inkAt data w p = true ∧ p.2 = b.minX)
        ∧ (∃ p, p ∈ gridPositions w h ∧ inkAt data w p = true ∧ p.2 = b.minX + b.w - 1)
        ∧ (∃ p, p ∈ gridPositions w h ∧ inkAt data w p = true ∧ p.1 = b.minY)
        ∧ (∃ p, p ∈ gridPositions w h ∧ inkAt data w p = true ∧ p.1 = b.minY + b.h - 1)
        ∧ 1 ≤ b.w ∧ 1 ≤ b.h)
    ∧ (∀ y x, y < h → x < w → inkAt data w (y, x) = true →
        (∀ p, p ∈ gridPositions w h → p ≠ (y, x) → inkAt data w p = false) →
        getBoundingBox data w h = some ⟨x, y, 1, 1⟩) := by
  by_cases hany : (gridPositions w h).any (inkAt data w) = true
  · -- at least one ink sample: the box is returned
    have hbb : getBoundingBox data w h =
        some ⟨(inkXs data w h).foldl min w, (inkYs data w h).foldl min h,
              (inkXs data w h).foldl max 0 - (inkXs data w h).foldl min w + 1,
              (inkYs data w h).foldl max 0 - (inkYs data w h).foldl min h + 1⟩ := by
      rw [getBoundingBox_eq, if_pos hany]
    rcases List.any_eq_true.1 hany with ⟨p0, hp0mem, hp0ink⟩
    have hp0F : p0 ∈ (gridPositions w h).filter (inkAt data w) :=
      List.mem_filter.2 ⟨hp0mem, hp0ink⟩
    have hx0 : p0.2 ∈ inkXs data w h := List.mem_map.2 ⟨p0, hp0F, rfl⟩
    have hy0 : p0.1 ∈ inkYs data w h := List.mem_map.2 ⟨p0, hp0F, rfl⟩
    -- the min/max folds are attained by an ink coordinate
    have hminX_mem : (inkXs data w h).foldl min w ∈ inkXs data w h := by
      rcases foldl_min_mem (inkXs data w h) w with hw | hmem
      · exfalso
        have h1 := foldl_min_le_mem (inkXs data w h) w p0.2 hx0
        have h2 := inkXs_lt data w h p0.2 hx0
        omega
      · exact hmem
    have hminY_mem : (inkYs data w h).foldl min h ∈ inkYs data w h := by
      rcases foldl_min_mem (inkYs data w h) h with hh | hmem
      · exfalso
        have h1 := foldl_min_le_mem (inkYs data w h) h p0.1 hy0
        have h2 := inkYs_lt data w h p0.1 hy0
        omega
      · exact hmem
    have hmaxX_mem : (inkXs data w h).foldl max 0 ∈ inkXs data w h := by
      rcases foldl_max_mem (inkXs data w h) 0 with h0 | hmem
      · have h1 := le_foldl_max_mem (inkXs data w h) 0 p0.2 hx0
        have h2 : p0.2 = (inkXs data w h).foldl max 0 := by omega
        exact h2 ▸ hx0
      · exact hmem
    have hmaxY_mem : (inkYs data w h).foldl max 0 ∈ inkYs data w h := by
      rcases foldl_max_mem (inkYs data w h) 0 with h0 | hmem
      · have h1 := le_foldl_max_mem (inkYs data w h) 0 p0.1 hy0
        have h2 : p0.1 = (inkYs data w h).foldl max 0 := by omega
        exact h2 ▸ hy0
      · exact hmem
    have hminX_le_maxX : (inkXs data w h).foldl min w ≤ (inkXs data w h).foldl max 0 :=
      foldl_min_le_mem _ _ _ hmaxX_mem
    have hminY_le_maxY : (inkYs data w h).foldl min h ≤ (inkYs data w h).foldl max 0 :=
      foldl_min_le_mem _ _ _ hmaxY_mem
    refine ⟨⟨fun hnone => ?_, fun hall => ?_⟩, ?_, ?_⟩
    · rw [hbb] at hnone
      cases hnone
    · exfalso
      have h1 : inkAt data w p0 = false :=
        hall p0.1 (mem_gridPositions.1 hp0mem).1 p0.2 (mem_gridPositions.1 hp0mem).2
      rw [hp0ink] at h1
      cases h1
    · -- bounding-box conjunct
      intro b hb
      rw [hbb] at hb
      injection hb with hb
      subst hb
      refine ⟨?_, ?_, ?_, ?_, ?_, ?_, ?_⟩
      · intro y x hy hx hink
        have hF : ((y, x) : Nat × Nat) ∈ (gridPositions w h).filter (inkAt data w) :=
          List.mem_filter.2 ⟨mem_gridPositions.2 ⟨hy, hx⟩, hink⟩
        have hxm : x ∈ inkXs data w h := List.mem_map.2 ⟨(y, x), hF, rfl⟩
        have hym : y ∈ inkYs data w h := List.mem_map.2 ⟨(y, x), hF, rfl⟩
        have b1 := foldl_min_le_mem (inkXs data w h) w x hxm
        have b2 := le_foldl_max_mem (inkXs data w h) 0 x hxm
        have b3 := foldl_min_le_mem (inkYs data w h) h y hym
        have b4 := le_foldl_max_mem (inkYs data w h) 0 y hym
        dsimp only
        omega
      · rcases List.mem_map.1 hminX_mem with ⟨p, hpF, hpx⟩
        exact ⟨p, (List.mem_filter.1 hpF).1, (List.mem_filter.1 hpF).2, hpx⟩
      · rcases List.mem_map.1 hmaxX_mem with ⟨p, hpF, hpx⟩
        refine ⟨p, (List.mem_filter.1 hpF).1, (List.mem_filter.1 hpF).2, ?_⟩
        dsimp only
        omega
      · rcases List.mem_map.1 hminY_mem with ⟨p, hpF, hpy⟩
        exact ⟨p, (List.mem_filter.1 hpF).1, (List.mem_filter.1 hpF).2, hpy⟩
      · rcases List.mem_map.1 hmaxY_mem with ⟨p, hpF, hpy⟩
        refine ⟨p, (List.mem_filter.1 hpF).1, (List.mem_filter.1 hpF).2, ?_⟩
        dsimp only
        omega
      · dsimp only
        omega
      · dsimp only
        omega
    · -- single-ink-sample conjunct
      intro y x hy hx hink huniq
      have hall : ∀ q ∈ (gridPositions w h).filter (inkAt data w), q = ((y, x) : Nat × Nat) := by
        intro q hq
        rcases List.mem_filter.1 hq with ⟨hqg, hqink⟩
        by_contra hne
        have h1 := huniq q hqg hne
        rw [hqink] at h1
        cases h1
      have hxall : ∀ x' ∈ inkXs data w h, x' = x := by
        intro x' hx'
        rcases List.mem_map.1 hx' with ⟨q, hqF, hqx⟩
        rw [hall q hqF] at hqx
        exact hqx.symm
      have hyall : ∀ y' ∈ inkYs data w h, y' = y := by
        intro y' hy'
        rcases List.mem_map.1 hy' with ⟨q, hqF, hqy⟩
        rw [hall q hqF] at hqy
        exact hqy.symm
      have e1 : (inkXs data w h).foldl min w = x := hxall _ hminX_mem
      have e2 : (inkYs data w h).foldl min h = y := hyall _ hminY_mem
      have e3 : (inkXs data w h).foldl max 0 = x := hxall _ hmaxX_mem
      have e4 : (inkYs data w h).foldl max 0 = y := hyall _ hmaxY_mem
      rw [hbb, e1, e2, e3, e4]
      have e5 : x - x + 1 = 1 := by omega
      have e6 : y - y + 1 = 1 := by omega
      rw [e5, e6]
  · -- no ink sample: `none` is returned
    have hany' : (gridPositions w h).any (inkAt data w) = false := by
      revert hany; cases (gridPositions w h).any (inkAt data w) <;> simp
    have hbb : getBoundingBox data w h = none := by
      rw [getBoundingBox_eq, if_neg hany]
    refine ⟨⟨fun _ => ?_, fun _ => hbb⟩, ?_, ?_⟩
    · intro y hy x hx
      have hne := List.any_eq_false.1 hany' (y, x) (mem_gridPositions.2 ⟨hy, hx⟩)
      simpa using hne
    · intro b hb
      rw [hbb] at hb
      cases hb
    · intro y x hy hx hink _
      exact absurd hink (List.any_eq_false.1 hany' (y, x) (mem_gridPositions.2 ⟨hy, hx⟩))

end Script

namespace Script

/-- A concrete 4×4 test raster whose only ink sample is at column 2, row 1:
the red channel of that sample (buffer index `(1*4+2)*4 = 24`) is 255 and
every other byte is 0. -/
def inkData : Nat → Nat := fun i => if i = 24 then 255 else 0

/-- Witness for **C1** at the concrete single-ink raster `inkData`. -/
theorem getBoundingBox_correct_witness :
    getBoundingBox inkData 4 4 = some ⟨2, 1, 1, 1⟩ :=
  (getBoundingBox_correct inkData 4 4).2.2 1 2 (by decide) (by decide) (by decide) (by decide)

end Script

namespace Script

/-- The first-channel value of the sample at position `p = (y, x)`. -/
def sampleVal (data : Nat → Nat) (w : Nat) (p : Nat × Nat) : Nat :=
  data ((p.1 * w + p.2) * 4)

/-- `sumX` of the spec: `Σ x·value` over exactly the ink samples. -/
def inkSumX (data : Nat → Nat) (w h : Nat) : Nat :=
  (((gridPositions w h).filter (inkAt data w)).map (fun p => p.2 * sampleVal data w p)).sum

/-- `sumY` of the spec: `Σ y·value` over exactly the ink samples. -/
def inkSumY (data : Nat → Nat) (w h : Nat) : Nat :=
  (((gridPositions w h).filter (inkAt data w)).map (fun p => p.1 * sampleVal data w p)).sum

/-- `mass` of the spec: `Σ value` over exactly the ink samples. -/
def inkMass (data : Nat → Nat) (w h : Nat) : Nat :=
  (((gridPositions w h).filter (inkAt data w)).map (fun p => sampleVal data w p)).sum

/-- The `getCenterOfMass` scan, characterized: the accumulators are the sums
over exactly the ink samples. -/
theorem foldl_comStep (data : Nat → Nat) (w : Nat) :
    ∀ (l : List (Nat × Nat)) (st : ComState),
      l.foldl (comStep data w) st =
        ⟨st.sumX + ((l.filter (inkAt data w)).map (fun p => p.2 * sampleVal data w p)).sum,
         st.sumY + ((l.filter (inkAt data w)).map (fun p => p.1 * sampleVal data w p)).sum,
         st.mass + ((l.filter (inkAt data w)).map (fun p => sampleVal data w p)).sum⟩ := by
  intro l
  induction l with
  | nil => intro st; simp
  | cons p t ih =>
    intro st
    by_cases hp : inkAt data w p = true
    · have hstep : comStep data w st p =
          ⟨st.sumX + p.2 * sampleVal data w p,
           st.sumY + p.1 * sampleVal data w p,
           st.mass + sampleVal data w p⟩ := by
        simp [comStep, hp, sampleVal]
      rw [List.foldl_cons, hstep, ih]
      simp only [List.filter_cons, hp, if_true, List.map_cons, List.sum_cons, ComState.mk.injEq]
      refine ⟨?_, ?_, ?_⟩ <;> omega
    · have hp' : inkAt data w p = false := by
        revert hp; cases inkAt data w p <;> simp
      have hstep : comStep data w st p = st := by
        simp [comStep, hp']
      rw [List.foldl_cons, hstep, ih]
      simp [List.filter_cons, hp']

/-- `getCenterOfMass` as a single conditional over the ink sums. -/
theorem getCenterOfMass_eq (data : Nat → Nat) (w h : Nat) :
    getCenterOfMass data w h =
      if inkMass data w h = 0 then none
      else some ((inkSumX data w h : ℚ) / (inkMass data w h : ℚ),
                 (inkSumY data w h : ℚ) / (inkMass data w h : ℚ)) := by
  simp only [getCenterOfMass, foldl_comStep, inkSumX, inkSumY, inkMass, Nat.zero_add]

/-- Modelled from the spec's contrast case only (`weighted by intensity,
not an unweighted binary-mask centroid`): the centroid a binary ink mask
would give — mean of ink positions, ignoring intensities. Not part of the
source; stated only to show the source's result differs from it. -/
def unweightedCentroid (data : Nat → Nat) (w h : Nat) : Option (ℚ × ℚ) :=
  let F := (gridPositions w h).filter (inkAt data w)
  if F.length = 0 then none
  else some (((F.map (·.2)).sum : ℚ) / (F.length : ℚ),
             ((F.map (·.1)).sum : ℚ) / (F.length : ℚ))

/-- A concrete 2×1 raster with two ink samples of different intensities:
value 60 at `(x=0, y=0)` (buffer index 0) and value 255 at `(x=1, y=0)`
(buffer index 4). -/
def twoInkData : Nat → Nat := fun i => if i = 0 then 60 else if i = 4 then 255 else 0

/-- **C2.** `getCenterOfMass` accumulates `sumX += x·value`,
`sumY += y·value`, `mass += value` over exactly the samples whose first
channel value exceeds 50, returns `none` exactly when `mass = 0`, and
otherwise returns the intensity-weighted centroid `(sumX/mass, sumY/mass)`
— which differs from the unweighted binary-mask centroid, as the concrete
two-intensity raster `twoInkData` exhibits. -/
theorem getCenterOfMass_correct (data : Nat → Nat) (w h : Nat) :
    ((gridPositions w h).foldl (comStep data w) ⟨0, 0, 0⟩ =
      ⟨inkSumX data w h, inkSumY data w h, inkMass data w h⟩)
    ∧ (getCenterOfMass data w h = none ↔ inkMass data w h = 0)
    ∧ (inkMass data w h ≠ 0 →
        getCenterOfMass data w h =
          some ((inkSumX data w h : ℚ) / (inkMass data w h : ℚ),
                (inkSumY data w h : ℚ) / (inkMass data w h : ℚ)))
    ∧ getCenterOfMass twoInkData 2 1 ≠ unweightedCentroid twoInkData 2 1 := by
  refine ⟨?_, ⟨?_, ?_⟩, ?_, ?_⟩
  · rw [foldl_comStep]
    simp [inkSumX, inkSumY, inkMass]
  · intro hnone
    rw [getCenterOfMass_eq] at hnone
    by_contra hmass
    rw [if_neg hmass] at hnone
    cases hnone
  · intro hmass
    rw [getCenterOfMass_eq, if_pos hmass]
  · intro hmass
    rw [getCenterOfMass_eq, if_neg hmass]
  · have h1 : inkMass twoInkData 2 1 = 315 := by decide
    have h2 : inkSumX twoInkData 2 1 = 255 := by decide
    have h3 : inkSumY twoInkData 2 1 = 0 := by decide
    have hF : (gridPositions 2 1).filter (inkAt twoInkData 2) = [(0, 0), (0, 1)] := by decide
    rw [getCenterOfMass_eq, if_neg (by rw [h1]; omega), h1, h2, h3]
    norm_num [unweightedCentroid, hF]

/-- Witness for **C2** at the concrete single-ink raster `inkData`:
its mass is nonzero, and the returned centroid is the weighted quotient. -/
theorem getCenterOfMass_correct_witness :
    getCenterOfMass inkData 4 4 =
      some ((inkSumX inkData 4 4 : ℚ) / (inkMass inkData 4 4 : ℚ),
            (inkSumY inkData 4 4 : ℚ) / (inkMass inkData 4 4 : ℚ)) :=
  (getCenterOfMass_correct inkData 4 4).2.2.1 (by decide)

end Script

/-- **C10.** For all inputs (pixel array, width, height), `getBoundingBox`
and `getCenterOfMass` from `src/script.js` and the correspondingly named
functions from `src/unnamed/part_000` are extensionally equal: the two
pipeline copies compute the same core normalization logic. -/
theorem pipelines_equivalent :
    (∀ (data : Nat → Nat) (w h : Nat),
      Part000.getBoundingBox data w h = Script.getBoundingBox data w h)
    ∧ (∀ (data : Nat → Nat) (w h : Nat),
      Part000.getCenterOfMass data w h = Script.getCenterOfMass data w h) :=
  ⟨fun _ _ _ => rfl, fun _ _ _ => rfl⟩

namespace Script

/-- `scale = 20 / Math.max(bbox.w, bbox.h)` (line 234 of the source). -/
def isoScale (b : BBox) : ℚ := 20 / (Nat.max b.w b.h : ℚ)

/-- `sw = bbox.w * scale` (line 235). -/
def scaledW (b : BBox) : ℚ := (b.w : ℚ) * isoScale b

/-- `sh = bbox.h * scale` (line 236). -/
def scaledH (b : BBox) : ℚ := (b.h : ℚ) * isoScale b

/-- Opaque model of the 2D-canvas resampling performed with `drawImage`
(`imageSmoothingEnabled`, bicubic-equivalent interpolation): given the
hidden raster and the box, `helperBytes` is the readback of the 28×28
helper canvas holding the rescaled image pasted at the centered offset
(line 248), and `frameBytes` is the readback of the 28×28 target canvas
with the rescaled image pasted at placement offset `(tx, ty)` (line 267).
The interpolation itself is a deterministic function of these arguments;
its numeric kernel is not re-specified here. -/
structure RenderModel where
  helperBytes : (Nat → Nat) → Nat → Nat → BBox → Nat → Nat
  frameBytes : (Nat → Nat) → Nat → Nat → BBox → ℚ → ℚ → Nat → Nat

/-- The placement offset `(tx, ty)` computed on lines 248-259: start from
the centered offset `((28-sw)/2, (28-sh)/2)`, add the center-of-mass
correction `(14 - com.x, 14 - com.y)` when the centroid is defined, then
add the requested shift. -/
def placement (R : RenderModel) (data : Nat → Nat) (w h : Nat) (b : BBox)
    (shiftX shiftY : ℚ) : ℚ × ℚ :=
  let com := getCenterOfMass (R.helperBytes data w h b) 28 28
  let tx0 : ℚ := (28 - scaledW b) / 2
  let ty0 : ℚ := (28 - scaledH b) / 2
  match com with
  | some c => (tx0 + (14 - c.1) + shiftX, ty0 + (14 - c.2) + shiftY)
  | none => (tx0 + shiftX, ty0 + shiftY)

/-- The per-sample normalization of lines 270-271:
`val = finalData[i] / 255.0; val = Math.min(1.0, val * 1.3)`. -/
def normalizePixel (raw : Nat) : ℚ := min 1 ((raw : ℚ) / 255 * (13 / 10))

/-- `extractInputTensor(shiftX, shiftY)` from `src/script.js` (lines
223-276): extract the bounding box of the hidden raster; if `null`,
return `null`; otherwise render the canonical 28×28 frame at the computed
placement and read back every 4th byte (the single ink channel) of the
784 samples, normalized. -/
def extractInputTensor (R : RenderModel) (data : Nat → Nat) (w h : Nat)
    (shiftX shiftY : ℚ) : Option (List ℚ) :=
  match getBoundingBox data w h with
  | none => none
  | some b =>
    let p := placement R data w h b shiftX shiftY
    some ((List.range 784).map
      (fun k => normalizePixel (R.frameBytes data w h b p.1 p.2 (4 * k))))

end Script

namespace Script

/-- **C5.** For every bounding box with width, height ≥ 1, the isotropic
scale is `20 / max(width, height)`, the scaled dimensions are
`sw = width·scale` and `sh = height·scale` (real-valued), and
`max(sw, sh) = 20` exactly; in particular a 100×50 box yields
`scale = 0.2`, `sw = 20`, `sh = 10`. -/
theorem isoScale_correct :
    (∀ b : BBox, 1 ≤ b.w → 1 ≤ b.h →
      isoScale b = 20 / (Nat.max b.w b.h : ℚ)
      ∧ scaledW b = (b.w : ℚ) * isoScale b
      ∧ scaledH b = (b.h : ℚ) * isoScale b
      ∧ max (scaledW b) (scaledH b) = 20)
    ∧ isoScale ⟨0, 0, 100, 50⟩ = 1/5
    ∧ scaledW ⟨0, 0, 100, 50⟩ = 20
    ∧ scaledH ⟨0, 0, 100, 50⟩ = 10 := by
  have hmax : Nat.max 100 50 = 100 := by decide
  refine ⟨fun b hw hh => ⟨rfl, rfl, rfl, ?_⟩, ?_, ?_, ?_⟩
  · have hmpos : (0 : ℚ) < (Nat.max b.w b.h : ℚ) := by
      have : 1 ≤ Nat.max b.w b.h := le_trans hw (Nat.le_max_left _ _)
      exact_mod_cast Nat.lt_of_lt_of_le Nat.zero_lt_one this
    have hspos : (0 : ℚ) ≤ isoScale b := by
      unfold isoScale
      positivity
    calc max (scaledW b) (scaledH b)
        = max ((b.w : ℚ) * isoScale b) ((b.h : ℚ) * isoScale b) := rfl
      _ = max (b.w : ℚ) (b.h : ℚ) * isoScale b := (max_mul_of_nonneg _ _ hspos).symm
      _ = max (b.w : ℚ) (b.h : ℚ) * (20 / max (b.w : ℚ) (b.h : ℚ)) := by
          simp only [isoScale, Nat.cast_max]
      _ = 20 := by
          have hm : max (b.w : ℚ) (b.h : ℚ) ≠ 0 := by
            rw [← Nat.cast_max]; exact ne_of_gt hmpos
          field_simp
  · show (20 : ℚ) / (Nat.max 100 50 : ℚ) = 1/5
    rw [hmax]; norm_num
  · show (100 : ℚ) * ((20 : ℚ) / (Nat.max 100 50 : ℚ)) = 20
    rw [hmax]; norm_num
  · show (50 : ℚ) * ((20 : ℚ) / (Nat.max 100 50 : ℚ)) = 10
    rw [hmax]; norm_num

/-- Witness for **C5** at the concrete box 100×50. -/
theorem isoScale_correct_witness :
    max (scaledW ⟨0, 0, 100, 50⟩) (scaledH ⟨0, 0, 100, 50⟩) = 20 :=
  ((isoScale_correct.1 ⟨0, 0, 100, 50⟩ (by decide) (by decide)).2.2.2)

end Script

namespace Script

/-- Reading a defaulted index out of a map over `List.range`. -/
theorem getD_map_range {α : Type} (f : Nat → α) (d : α) (n k : Nat) (hk : k < n) :
    ((List.range n).map f).getD k d = f k := by
  rw [List.getD_eq_getElem?_getD, List.getElem?_map, List.getElem?_range hk]
  rfl

/-- `extractInputTensor` on a raster with no bounding box returns `none`
(line 226). -/
theorem extractInputTensor_none (R : RenderModel) (data : Nat → Nat) (w h : Nat)
    (sx sy : ℚ) (hbox : getBoundingBox data w h = none) :
    extractInputTensor R data w h sx sy = none := by
  unfold extractInputTensor
  rw [hbox]

/-- `extractInputTensor` on a raster with a bounding box returns the
normalized readback of the rendered frame. -/
theorem extractInputTensor_some (R : RenderModel) (data : Nat → Nat) (w h : Nat)
    (sx sy : ℚ) (b : BBox) (hbox : getBoundingBox data w h = some b) :
    extractInputTensor R data w h sx sy =
      some ((List.range 784).map
        (fun k => normalizePixel (R.frameBytes data w h b
          (placement R data w h b sx sy).1 (placement R data w h b sx sy).2 (4 * k)))) := by
  unfold extractInputTensor
  rw [hbox]

/-- **C3.** For every raster with a non-`none` bounding box,
`extractInputTensor` returns a vector of exactly 784 = 28×28 values, each
equal to `min(1.0, (raw/255)·1.3)` for the corresponding first-channel
byte of the rendered 28×28 frame (the contrast boost applied after
dividing by 255), hence every returned value lies in [0, 1]; and it
returns `none` exactly when the bounding box is `none`. -/
theorem extractInputTensor_correct (R : RenderModel) (data : Nat → Nat) (w h : Nat)
    (sx sy : ℚ) :
    (extractInputTensor R data w h sx sy = none ↔ getBoundingBox data w h = none)
    ∧ (∀ v, extractInputTensor R data w h sx sy = some v →
        v.length = 784
        ∧ (∀ q ∈ v, 0 ≤ q ∧ q ≤ 1)
        ∧ (∃ b, getBoundingBox data w h = some b ∧
            ∀ k, k < 784 →
              v.getD k 0 =
                min 1 ((R.frameBytes data w h b (placement R data w h b sx sy).1
                  (placement R data w h b sx sy).2 (4 * k) : ℚ) / 255 * (13 / 10)))) := by
  cases hbox : getBoundingBox data w h with
  | none =>
    refine ⟨⟨fun _ => rfl, fun _ => extractInputTensor_none R data w h sx sy hbox⟩,
      fun v hv => ?_⟩
    rw [extractInputTensor_none R data w h sx sy hbox] at hv
    cases hv
  | some b =>
    have hext := extractInputTensor_some R data w h sx sy b hbox
    refine ⟨⟨fun hn => ?_, fun hn => ?_⟩, fun v hv => ?_⟩
    · rw [hext] at hn; cases hn
    · exact absurd hn (by simp)
    · rw [hext] at hv
      injection hv with hv
      subst hv
      refine ⟨by simp, fun q hq => ?_, b, rfl, fun k hk => ?_⟩
      · rcases List.mem_map.1 hq with ⟨k, _, rfl⟩
        unfold normalizePixel
        constructor
        · apply le_min
          · norm_num
          · positivity
        · exact min_le_left _ _
      · rw [getD_map_range _ _ _ _ hk]
        rfl

/-- The trivial render model: every canvas readback byte is 0 (a blank
canvas composite). Used to instantiate theorems at concrete inputs. -/
def R0 : RenderModel := ⟨fun _ _ _ _ _ => 0, fun _ _ _ _ _ _ _ => 0⟩

/-- Witness for **C3** at the trivial render model and the single-ink
raster `inkData`: the extraction succeeds, has 784 entries, all in [0,1]. -/
theorem extractInputTensor_correct_witness :
    (List.replicate 784 (normalizePixel 0)).length = 784
    ∧ (∀ q ∈ List.replicate 784 (normalizePixel 0), 0 ≤ q ∧ q ≤ 1) := by
  have hbox : getBoundingBox inkData 4 4 = some ⟨2, 1, 1, 1⟩ := by decide
  have hsome : extractInputTensor R0 inkData 4 4 0 0 =
      some (List.replicate 784 (normalizePixel 0)) := by
    rw [extractInputTensor_some R0 inkData 4 4 0 0 ⟨2, 1, 1, 1⟩ hbox]
    simp only [R0]
    rw [List.map_const', List.length_range]
  exact ⟨((extractInputTensor_correct R0 inkData 4 4 0 0).2 _ hsome).1,
         ((extractInputTensor_correct R0 inkData 4 4 0 0).2 _ hsome).2.1⟩

end Script

namespace Script

/-- `extractInputTensor` with its one external write made explicit: when
`shiftX === 0 && shiftY === 0` the freshly rendered frame is also drawn
onto the sensor canvas (lines 263-265); the sensor canvas contents are
threaded as explicit state. -/
def extractWithSensor (R : RenderModel) (data : Nat → Nat) (w h : Nat)
    (sx sy : ℚ) (sensor : Nat → Nat) : Option (List ℚ) × (Nat → Nat) :=
  match getBoundingBox data w h with
  | none => (none, sensor)
  | some b =>
    let p := placement R data w h b sx sy
    let frame := R.frameBytes data w h b p.1 p.2
    (some ((List.range 784).map (fun k => normalizePixel (frame (4 * k)))),
     if sx = 0 ∧ sy = 0 then frame else sensor)

/-- `extractWithSensor` when the bounding box is `none`. -/
theorem extractWithSensor_none (R : RenderModel) (data : Nat → Nat) (w h : Nat)
    (sx sy : ℚ) (sensor : Nat → Nat) (hbox : getBoundingBox data w h = none) :
    extractWithSensor R data w h sx sy sensor = (none, sensor) := by
  unfold extractWithSensor
  rw [hbox]

/-- `extractWithSensor` when the bounding box is `some b`. -/
theorem extractWithSensor_some (R : RenderModel) (data : Nat → Nat) (w h : Nat)
    (sx sy : ℚ) (sensor : Nat → Nat) (b : BBox)
    (hbox : getBoundingBox data w h = some b) :
    extractWithSensor R data w h sx sy sensor =
      (some ((List.range 784).map
        (fun k => normalizePixel (R.frameBytes data w h b
          (placement R data w h b sx sy).1 (placement R data w h b sx sy).2 (4 * k)))),
       if sx = 0 ∧ sy = 0 then
         R.frameBytes data w h b (placement R data w h b sx sy).1
           (placement R data w h b sx sy).2
       else sensor) := by
  unfold extractWithSensor
  rw [hbox]

/-- **C8.** Two invocations of `extractInputTensor` with shift (0,0) on
the same unchanged raster produce identical output vectors: the output is
independent of the sensor-canvas state (the only state the first call
mutates), so running the extraction twice in sequence — the second call
starting from the sensor state the first call left behind — yields equal
results, both equal to the pure extraction. -/
theorem extractInputTensor_deterministic (R : RenderModel) (data : Nat → Nat)
    (w h : Nat) (s0 : Nat → Nat) :
    (extractWithSensor R data w h 0 0 s0).1 = extractInputTensor R data w h 0 0
    ∧ (extractWithSensor R data w h 0 0 ((extractWithSensor R data w h 0 0 s0).2)).1
        = (extractWithSensor R data w h 0 0 s0).1 := by
  cases hbox : getBoundingBox data w h with
  | none =>
    simp [extractWithSensor_none, extractInputTensor_none, hbox]
  | some b =>
    simp [extractWithSensor_some, extractInputTensor_some, hbox]

end Script

namespace Script

/-- The fixed TTA shift set of line 285:
`[[0,0], [0,1], [0,-1], [1,0], [-1,0]]`. -/
def shifts : List (ℚ × ℚ) := [(0, 0), (0, 1), (0, -1), (1, 0), (-1, 0)]

/-- The batch collected on lines 286-291: for each shift in order, call
`extractInputTensor` and push the result if it is not `null`. -/
def batchInputs (R : RenderModel) (data : Nat → Nat) (w h : Nat) : List (List ℚ) :=
  shifts.foldl (fun acc s =>
    match extractInputTensor R data w h s.1 s.2 with
    | some inp => acc ++ [inp]
    | none => acc) []

/-- Resource-relevant events of one click of the predict button: a
bounding-box extraction (with its result), a tensor allocation, and a
tensor disposal. -/
inductive PredictEvent where
  | boxExtract (result : Option BBox)
  | alloc (id : Nat)
  | dispose (id : Nat)
deriving Repr, DecidableEq

/-- Exit modes of the model round-trip inside the click handler:
everything succeeds, `model.predict(batch)` throws, or `preds.data()`
throws. -/
inductive ModelOutcome where
  | ok
  | predictThrows
  | dataThrows
deriving Repr, DecidableEq

/-- The event trace of one click of the predict button (lines 281-343).
Each of the 5 iterations of the shift loop calls `extractInputTensor`,
which unconditionally performs one `getBoundingBox` scan of the unchanged
raster (line 225). If the batch is empty the handler returns before any
tensor exists. Otherwise tensor 0 is the batch (`tf.tensor2d`, line 298)
and tensor 1 is the prediction (`model.predict`, line 299); the handler
has no try/finally, so `batch.dispose()` and `preds.dispose()` (lines
341-342) run only when neither the model call nor the data readback
throws. -/
def predictTrace (R : RenderModel) (data : Nat → Nat) (w h : Nat)
    (outcome : ModelOutcome) : List PredictEvent :=
  let extractEvents := shifts.map (fun _ => PredictEvent.boxExtract (getBoundingBox data w h))
  if (batchInputs R data w h).isEmpty then extractEvents
  else
    extractEvents ++ [PredictEvent.alloc 0] ++
      match outcome with
      | ModelOutcome.predictThrows => []
      | ModelOutcome.dataThrows => [PredictEvent.alloc 1]
      | ModelOutcome.ok =>
          [PredictEvent.alloc 1, PredictEvent.dispose 0, PredictEvent.dispose 1]

/-- Event discriminator: is this a bounding-box extraction? -/
def isBoxExtract : PredictEvent → Bool
  | PredictEvent.boxExtract _ => true
  | _ => false

/-- How many bounding-box extractions a trace performs. -/
def countBoxExtracts (t : List PredictEvent) : Nat := t.countP isBoxExtract

/-- The ids of the tensors allocated in a trace. -/
def allocIds (t : List PredictEvent) : List Nat :=
  t.filterMap (fun e => match e with | PredictEvent.alloc i => some i | _ => none)

/-- The ids of the tensors disposed in a trace. -/
def disposedIds (t : List PredictEvent) : List Nat :=
  t.filterMap (fun e => match e with | PredictEvent.dispose i => some i | _ => none)

/-- Every tensor allocated in the trace is also disposed in it. -/
def allDisposed (t : List PredictEvent) : Prop :=
  ∀ i ∈ allocIds t, i ∈ disposedIds t

/-- The batch when the box exists: all five shifts succeed. -/
theorem batchInputs_of_some (R : RenderModel) (data : Nat → Nat) (w h : Nat)
    (b : BBox) (hbox : getBoundingBox data w h = some b) :
    batchInputs R data w h = shifts.map (fun s =>
      (List.range 784).map (fun k => normalizePixel (R.frameBytes data w h b
        (placement R data w h b s.1 s.2).1 (placement R data w h b s.1 s.2).2 (4 * k)))) := by
  simp [batchInputs, shifts, extractInputTensor_some R data w h _ _ b hbox]

/-- The batch when the box is `none`: every shift yields `null`. -/
theorem batchInputs_of_none (R : RenderModel) (data : Nat → Nat) (w h : Nat)
    (hbox : getBoundingBox data w h = none) :
    batchInputs R data w h = [] := by
  simp [batchInputs, shifts, extractInputTensor_none R data w h _ _ hbox]

end Script

namespace Script

/-- **C4** (counterexample). On the concrete inked raster `inkData` the
predict click performs five bounding-box extractions — one per shift —
not exactly one: the claim "the bounding box is extracted from the raster
exactly once" is false of the code. -/
theorem predict_box_extractions_counterexample :
    countBoxExtracts (predictTrace R0 inkData 4 4 ModelOutcome.ok) = 5
    ∧ countBoxExtracts (predictTrace R0 inkData 4 4 ModelOutcome.ok) ≠ 1 := by
  constructor
  · decide
  · decide

/-- **C4** (amended). Every predict invocation performs one bounding-box
extraction per shift — `shifts.length = 5` of them, not one — but every
extraction is over the unchanged raster and returns the same box, so all
5 shifted frames are built from that same box value; each shift only
re-derives its own center-of-mass correction. -/
theorem predict_box_per_shift (R : RenderModel) (data : Nat → Nat) (w h : Nat)
    (outcome : ModelOutcome) :
    countBoxExtracts (predictTrace R data w h outcome) = shifts.length
    ∧ shifts.length = 5
    ∧ (∀ e ∈ predictTrace R data w h outcome, ∀ r, e = PredictEvent.boxExtract r →
        r = getBoundingBox data w h)
    ∧ (∀ b, getBoundingBox data w h = some b →
        ∀ s ∈ shifts, extractInputTensor R data w h s.1 s.2 =
          some ((List.range 784).map (fun k => normalizePixel (R.frameBytes data w h b
            (placement R data w h b s.1 s.2).1 (placement R data w h b s.1 s.2).2 (4 * k))))) := by
  refine ⟨?_, rfl, ?_, ?_⟩
  · by_cases hempty : (batchInputs R data w h).isEmpty
    · simp [predictTrace, hempty, countBoxExtracts, shifts, isBoxExtract]
    · cases outcome <;>
        simp [predictTrace, hempty, countBoxExtracts, shifts, isBoxExtract]
  · intro e he r her
    subst her
    by_cases hempty : (batchInputs R data w h).isEmpty
    · simp [predictTrace, hempty, shifts] at he
      exact he
    · cases outcome <;> simp [predictTrace, hempty, shifts] at he <;> exact he
  · intro b hbox s _
    exact extractInputTensor_some R data w h s.1 s.2 b hbox

/-- Witness for the amended **C4** at the concrete inked raster: the
extraction count equals the shift count, and the box value carried by a
concrete extraction event of the trace is the raster's box. -/
theorem predict_box_per_shift_witness :
    some (⟨2, 1, 1, 1⟩ : BBox) = getBoundingBox inkData 4 4
    ∧ countBoxExtracts (predictTrace R0 inkData 4 4 ModelOutcome.ok) = shifts.length :=
  ⟨(predict_box_per_shift R0 inkData 4 4 ModelOutcome.ok).2.2.1
      (PredictEvent.boxExtract (some ⟨2, 1, 1, 1⟩)) (by decide) _ rfl,
   (predict_box_per_shift R0 inkData 4 4 ModelOutcome.ok).1⟩

end Script

namespace Script

/-- **C9** (counterexample). If `model.predict(batch)` throws on the
concrete inked raster, the batch tensor allocated on line 298 is never
disposed — the handler has no try/finally, so the claim that every
allocated tensor is disposed on every exit path is false of the code. -/
theorem predict_dispose_counterexample :
    ¬ allDisposed (predictTrace R0 inkData 4 4 ModelOutcome.predictThrows) := by
  unfold allDisposed
  decide

/-- **C9** (amended). Tensor disposal holds on the successful path and
(vacuously) on the early no-ink return, where no tensor is allocated; but
on the exit paths where the batched model call or the data readback
throws, the already-allocated tensors are not disposed. -/
theorem predict_dispose_paths (R : RenderModel) (data : Nat → Nat) (w h : Nat) :
    allDisposed (predictTrace R data w h ModelOutcome.ok)
    ∧ ((batchInputs R data w h).isEmpty = true →
        ∀ outcome, allDisposed (predictTrace R data w h outcome)
          ∧ allocIds (predictTrace R data w h outcome) = [])
    ∧ ((batchInputs R data w h).isEmpty = false →
        ¬ allDisposed (predictTrace R data w h ModelOutcome.predictThrows)
        ∧ ¬ allDisposed (predictTrace R data w h ModelOutcome.dataThrows)) := by
  refine ⟨?_, ?_, ?_⟩
  · by_cases hempty : (batchInputs R data w h).isEmpty
    · simp [predictTrace, hempty, allDisposed, allocIds, disposedIds, shifts]
    · simp [predictTrace, hempty, allDisposed, allocIds, disposedIds, shifts]
  · intro hempty outcome
    constructor
    · simp [predictTrace, hempty, allDisposed, allocIds, disposedIds, shifts]
    · simp [predictTrace, hempty, allocIds, shifts]
  · intro hempty
    constructor
    · intro hald
      have h0 : (0 : Nat) ∈ allocIds (predictTrace R data w h ModelOutcome.predictThrows) := by
        simp [predictTrace, hempty, allocIds, shifts]
      have h1 := hald 0 h0
      simp [predictTrace, hempty, disposedIds, shifts] at h1
    · intro hald
      have h0 : (0 : Nat) ∈ allocIds (predictTrace R data w h ModelOutcome.dataThrows) := by
        simp [predictTrace, hempty, allocIds, shifts]
      have h1 := hald 0 h0
      simp [predictTrace, hempty, disposedIds, shifts] at h1

/-- Witness for the amended **C9** at the concrete inked raster: the
successful path disposes everything, and the throwing path leaks. -/
theorem predict_dispose_paths_witness :
    allDisposed (predictTrace R0 inkData 4 4 ModelOutcome.ok)
    ∧ ¬ allDisposed (predictTrace R0 inkData 4 4 ModelOutcome.predictThrows) :=
  ⟨(predict_dispose_paths R0 inkData 4 4).1,
   ((predict_dispose_paths R0 inkData 4 4).2.2 (by decide)).1⟩

end Script

namespace Script

/-- The inner accumulation loop of lines 303-304:
`for(j=0..9) avg[j] += probs[i*10 + j]` for one row `i`. -/
def accumRow (probs : Nat → ℚ) (i : Nat) (avg : List ℚ) : List ℚ :=
  (List.range 10).foldl (fun a j => a.set j (a.getD j 0 + probs (i * 10 + j))) avg

/-- The full averaging computation of lines 302-306: start from
`new Array(10).fill(0)`, accumulate every row, then divide each entry by
the number of rows. -/
def avgProbs (probs : Nat → ℚ) (n : Nat) : List ℚ :=
  let a := (List.range n).foldl (fun a i => accumRow probs i a) (List.replicate 10 0)
  (List.range 10).foldl (fun a j => a.set j (a.getD j 0 / (n : ℚ))) a

/-- Column `j` summed over the `n` rows of the flat row-major probability
buffer. -/
def colSum (probs : Nat → ℚ) (n j : Nat) : ℚ := ∑ i ∈ Finset.range n, probs (i * 10 + j)

/-- Row `i` of the flat row-major probability buffer, summed. -/
def rowSum (probs : Nat → ℚ) (i : Nat) : ℚ := ∑ j ∈ Finset.range 10, probs (i * 10 + j)

/-- One pass of the accumulation loop over an explicit 10-entry array. -/
theorem accumRow_explicit (probs : Nat → ℚ) (i : Nat) (a0 a1 a2 a3 a4 a5 a6 a7 a8 a9 : ℚ) :
    accumRow probs i [a0, a1, a2, a3, a4, a5, a6, a7, a8, a9] =
      [a0 + probs (i * 10 + 0), a1 + probs (i * 10 + 1), a2 + probs (i * 10 + 2),
       a3 + probs (i * 10 + 3), a4 + probs (i * 10 + 4), a5 + probs (i * 10 + 5),
       a6 + probs (i * 10 + 6), a7 + probs (i * 10 + 7), a8 + probs (i * 10 + 8),
       a9 + probs (i * 10 + 9)] := rfl

/-- The accumulation phase computes the column sums. -/
theorem accumFold (probs : Nat → ℚ) :
    ∀ n : Nat, (List.range n).foldl (fun a i => accumRow probs i a) (List.replicate 10 0) =
      [colSum probs n 0, colSum probs n 1, colSum probs n 2, colSum probs n 3,
       colSum probs n 4, colSum probs n 5, colSum probs n 6, colSum probs n 7,
       colSum probs n 8, colSum probs n 9] := by
  intro n
  induction n with
  | zero =>
    simp [colSum]
  | succ n ih =>
    rw [List.range_succ, List.foldl_append, ih, List.foldl_cons, List.foldl_nil,
        accumRow_explicit]
    simp [colSum, Finset.sum_range_succ]

/-- The division pass over an explicit 10-entry array. -/
theorem divPass_explicit (n : Nat) (a0 a1 a2 a3 a4 a5 a6 a7 a8 a9 : ℚ) :
    (List.range 10).foldl (fun a j => a.set j (a.getD j 0 / (n : ℚ)))
        [a0, a1, a2, a3, a4, a5, a6, a7, a8, a9] =
      [a0 / (n : ℚ), a1 / (n : ℚ), a2 / (n : ℚ), a3 / (n : ℚ), a4 / (n : ℚ),
       a5 / (n : ℚ), a6 / (n : ℚ), a7 / (n : ℚ), a8 / (n : ℚ), a9 / (n : ℚ)] := rfl

/-- `avgProbs`, fully characterized entry-wise. -/
theorem avgProbs_eq (probs : Nat → ℚ) (n : Nat) :
    avgProbs probs n =
      [colSum probs n 0 / (n : ℚ), colSum probs n 1 / (n : ℚ), colSum probs n 2 / (n : ℚ),
       colSum probs n 3 / (n : ℚ), colSum probs n 4 / (n : ℚ), colSum probs n 5 / (n : ℚ),
       colSum probs n 6 / (n : ℚ), colSum probs n 7 / (n : ℚ), colSum probs n 8 / (n : ℚ),
       colSum probs n 9 / (n : ℚ)] := by
  unfold avgProbs
  rw [accumFold, divPass_explicit]

/-- **C6.** For every batch of `n` probability rows with 1 ≤ n ≤ 5, the
aggregated 10-vector is the column-wise arithmetic mean of the rows (each
column summed and divided by `n`, unweighted); consequently, if every row
sums to 1, the averaged vector sums to exactly 1 — in particular within
the 1e-6 tolerance. -/
theorem avgProbs_correct (probs : Nat → ℚ) (n : Nat) (h1 : 1 ≤ n) (_h5 : n ≤ 5) :
    (avgProbs probs n).length = 10
    ∧ (∀ j, j < 10 → (avgProbs probs n).getD j 0 = colSum probs n j / (n : ℚ))
    ∧ ((∀ i, i < n → rowSum probs i = 1) →
        (avgProbs probs n).sum = 1 ∧ |(avgProbs probs n).sum - 1| ≤ 1 / 1000000) := by
  have hn0 : (n : ℚ) ≠ 0 := by
    have : (0 : ℚ) < (n : ℚ) := by exact_mod_cast Nat.lt_of_lt_of_le Nat.zero_lt_one h1
    exact ne_of_gt this
  refine ⟨by rw [avgProbs_eq]; rfl, ?_, ?_⟩
  · intro j hj
    rw [avgProbs_eq]
    interval_cases j <;> rfl
  · intro hrows
    have hswap : ∑ j ∈ Finset.range 10, colSum probs n j = (n : ℚ) := by
      unfold colSum
      rw [Finset.sum_comm]
      calc ∑ i ∈ Finset.range n, ∑ j ∈ Finset.range 10, probs (i * 10 + j)
          = ∑ i ∈ Finset.range n, (1 : ℚ) := by
            refine Finset.sum_congr rfl ?_
            intro i hi
            exact hrows i (Finset.mem_range.1 hi)
        _ = (n : ℚ) := by simp
    have hsum : (avgProbs probs n).sum = 1 := by
      rw [avgProbs_eq]
      simp only [List.sum_cons, List.sum_nil]
      simp only [Finset.sum_range_succ, Finset.sum_range_zero, zero_add] at hswap
      field_simp
      linarith [hswap]
    exact ⟨hsum, by rw [hsum]; norm_num⟩

/-- A concrete flat probability buffer whose every row is
`[1, 0, 0, …, 0]`, so each row sums to 1. -/
def uniformRows : Nat → ℚ := fun k => if k % 10 = 0 then 1 else 0

/-- Witness for **C6** with three rows of the concrete buffer
`uniformRows`: the averaged vector sums to exactly 1. -/
theorem avgProbs_correct_witness : (avgProbs uniformRows 3).sum = 1 :=
  ((avgProbs_correct uniformRows 3 (by norm_num) (by norm_num)).2.2
    (by intro i hi; interval_cases i <;>
          simp +decide [rowSum, uniformRows, Finset.sum_range_succ])).1

end Script

namespace Script

/-- The comparator of line 324, `(a, b) => b.p - a.p`, as the ordering it
induces: `a` may precede `b` exactly when `b.p ≤ a.p`. The JS object
`{p, i}` built by `avg.map((p, i) => ({p, i}))` is modelled as the pair
`(i, p)` produced by enumeration. -/
def contenderLE (a b : Nat × ℚ) : Bool := decide (b.2 ≤ a.2)

/-- Descending comparison on probabilities alone. -/
def contenderDescLE (p q : ℚ) : Bool := decide (q ≤ p)

/-- `avg.map((p,i) => ({p,i})).sort((a,b) => b.p - a.p)` of line 324:
`Array.prototype.sort` is stable (ES2019), so it is modelled by the
stable `mergeSort` under the comparator's ordering. -/
def sortedContenders (avg : List ℚ) : List (Nat × ℚ) :=
  (avg.enum).mergeSort contenderLE

/-- `.slice(0, 3)` of line 324: the top-3 contender list. -/
def contenders (avg : List ℚ) : List (Nat × ℚ) := (sortedContenders avg).take 3

/-- The ranking the spec describes: sort all classes descending by
probability with ties broken by lower class index (`List.enumLE` breaks
ties of the underlying order by position). -/
def specSorted (avg : List ℚ) : List (Nat × ℚ) :=
  (avg.enum).mergeSort (List.enumLE contenderDescLE)

theorem contenderLE_trans : ∀ a b c : Nat × ℚ, contenderLE a b → contenderLE b c →
    contenderLE a c := by
  intro a b c h1 h2
  simp only [contenderLE, decide_eq_true_eq] at h1 h2 ⊢
  exact le_trans h2 h1

theorem contenderLE_total : ∀ a b : Nat × ℚ, contenderLE a b || contenderLE b a := by
  intro a b
  simp only [contenderLE, Bool.or_eq_true, decide_eq_true_eq]
  exact le_total _ _

theorem contenderDescLE_trans : ∀ p q r : ℚ, contenderDescLE p q → contenderDescLE q r →
    contenderDescLE p r := by
  intro p q r h1 h2
  simp only [contenderDescLE, decide_eq_true_eq] at h1 h2 ⊢
  exact le_trans h2 h1

theorem contenderDescLE_total : ∀ p q : ℚ, contenderDescLE p q || contenderDescLE q p := by
  intro p q
  simp only [contenderDescLE, Bool.or_eq_true, decide_eq_true_eq]
  exact le_total _ _

/-- Two ordered pairs cannot both be sublists of a duplicate-free list
unless their elements coincide. -/
theorem pair_sublist_antisymm {α : Type} {x y : α} :
    ∀ {s : List α}, s.Nodup → List.Sublist [x, y] s → List.Sublist [y, x] s → x = y := by
  intro s
  induction s with
  | nil =>
    intro _ h1 _
    simp at h1
  | cons z t ih =>
    intro nd h1 h2
    rcases List.nodup_cons.1 nd with ⟨hz, ndt⟩
    cases h1 with
    | cons _ h1' =>
      cases h2 with
      | cons _ h2' => exact ih ndt h1' h2'
      | cons₂ _ h2' =>
        have hy : y ∈ t := h1'.subset (by simp)
        exact absurd hy hz
    | cons₂ _ h1' =>
      cases h2 with
      | cons _ h2' =>
        have hx : x ∈ t := h2'.subset (by simp)
        exact absurd hx hz
      | cons₂ _ h2' => rfl

/-- In an enumerated list, the pair with the smaller index precedes the
other as a sublist. -/
theorem pair_sublist_enumFrom {α : Type} :
    ∀ (l : List α) (n : Nat) (a b : Nat × α), a ∈ l.enumFrom n → b ∈ l.enumFrom n →
      a.1 < b.1 → List.Sublist [a, b] (l.enumFrom n) := by
  intro l
  induction l with
  | nil =>
    intro n a b ha
    simp at ha
  | cons x t ih =>
    intro n a b ha hb hab
    rw [List.enumFrom_cons] at ha hb ⊢
    rcases List.mem_cons.1 ha with rfl | ha'
    · rcases List.mem_cons.1 hb with rfl | hb'
      · exact absurd hab (lt_irrefl _)
      · exact List.Sublist.cons₂ _ (List.singleton_sublist.2 hb')
    · rcases List.mem_cons.1 hb with rfl | hb'
      · have h1 := List.le_fst_of_mem_enumFrom ha'
        simp only at hab
        omega
      · exact List.Sublist.cons _ (ih (n + 1) a b ha' hb' hab)

/-- Enumerations are duplicate-free. -/
theorem nodup_enum {α : Type} (l : List α) : l.enum.Nodup :=
  (List.nodup_enum_map_fst l).of_map

/-- Stability, made explicit: sorting the enumerated probabilities with
the probability-only comparator of the source equals sorting them with
the tie-on-lower-index order of the spec. -/
theorem sortedContenders_eq_specSorted (avg : List ℚ) :
    sortedContenders avg = specSorted avg := by
  have hnd : (sortedContenders avg).Nodup :=
    ((List.mergeSort_perm (avg.enum) contenderLE).nodup_iff).2 (nodup_enum avg)
  refine @List.Perm.eq_of_sorted _ (fun a b => List.enumLE contenderDescLE a b = true) _ _ ?_ ?_ ?_ ?_
  · -- antisymmetry on members
    intro a b _ _ h1 h2
    simp only [List.enumLE, contenderDescLE] at h1 h2
    by_cases hab : b.2 ≤ a.2
    · by_cases hba : a.2 ≤ b.2
      · simp only [decide_eq_true_eq, hab, hba, if_true, decide_eq_true_eq] at h1 h2
        have hi : a.1 = b.1 := le_antisymm (by simpa using h1) (by simpa using h2)
        have hp : a.2 = b.2 := le_antisymm hba hab
        exact Prod.ext hi hp
      · rw [if_neg (by simpa using hba)] at h2
        cases h2
    · rw [if_neg (by simpa using hab)] at h1
      cases h1
  · -- the source's sort is also sorted for the tie-broken order
    have hpw := List.sorted_mergeSort contenderLE_trans contenderLE_total (avg.enum)
    rw [List.pairwise_iff_forall_sublist]
    intro a b hab
    have h1 : contenderLE a b = true := List.pairwise_iff_forall_sublist.1 hpw hab
    simp only [contenderLE, decide_eq_true_eq] at h1
    simp only [List.enumLE, contenderDescLE]
    rw [if_pos (by simpa using h1)]
    by_cases h2 : a.2 ≤ b.2
    · rw [if_pos (by simpa using h2)]
      simp only [decide_eq_true_eq]
      by_contra hlt
      push_neg at hlt
      have hmemA : a ∈ avg.enum :=
        List.mem_mergeSort.1 (hab.subset (by simp))
      have hmemB : b ∈ avg.enum :=
        List.mem_mergeSort.1 (hab.subset (by simp))
      have hba : List.Sublist [b, a] (avg.enum) := by
        have := pair_sublist_enumFrom avg 0 b a hmemB hmemA hlt
        simpa [List.enum] using this
      have hba2 : List.Sublist [b, a] (sortedContenders avg) :=
        List.pair_sublist_mergeSort contenderLE_trans contenderLE_total
          (by simp only [contenderLE, decide_eq_true_eq]; exact h2) hba
      have heq : a = b := pair_sublist_antisymm hnd hab hba2
      rw [heq] at hlt
      exact absurd rfl (ne_of_gt hlt)
    · rw [if_neg (by simpa using h2)]
  · -- the spec's sort is sorted for its own order
    exact List.sorted_mergeSort
      (List.enumLE_trans contenderDescLE_trans)
      (List.enumLE_total contenderDescLE_total) (avg.enum)
  · exact (List.mergeSort_perm (avg.enum) contenderLE).trans
      (List.mergeSort_perm (avg.enum) (List.enumLE contenderDescLE)).symm

end Script

namespace Script

/-- **C7.** For every averaged probability vector, the top-3 contender
list consists of the first three classes after sorting all classes
descending by probability with ties broken by lower class index (stable
sort on original order); for the vector
`[0.1, 0.05, 0.6, 0, 0.05, 0, 0.1, 0, 0.1, 0]` it is
`[(class 2, 60%), (class 0, 10%), (class 6, 10%)]`, class 0 before
class 6. -/
theorem contenders_correct :
    (∀ avg : List ℚ, contenders avg = (specSorted avg).take 3)
    ∧ contenders [1/10, 1/20, 3/5, 0, 1/20, 0, 1/10, 0, 1/10, 0] =
        [(2, 3/5), (0, 1/10), (6, 1/10)] := by
  constructor
  · intro avg
    unfold contenders
    rw [sortedContenders_eq_specSorted]
  · have henum : ([1/10, 1/20, 3/5, 0, 1/20, 0, 1/10, 0, 1/10, 0] : List ℚ).enum =
        [(0, 1/10), (1, 1/20), (2, 3/5), (3, 0), (4, 1/20), (5, 0), (6, 1/10), (7, 0),
         (8, 1/10), (9, 0)] := rfl
    unfold contenders sortedContenders
    rw [henum]
    norm_num [List.mergeSort, List.merge, List.splitInTwo, contenderLE]

end Script
